import Mathlib

/-!
Verification of the audio-classification worker pipeline
(machine-learning-client) against its natural-language specification.

The development shallowly embeds the Python sources:

* app/features.py      : feature extraction and cosine similarity
* app/worker.py        : process_one, process_loop (task claiming,
                         classification, persistence, idle backoff)

Floating-point arithmetic is modelled over the real numbers where square
roots are required (norms, cosine similarity) and over the rationals
everywhere else, so that the worker logic stays fully executable.
External libraries (librosa DSP, MongoDB, GridFS, joblib models) are opaque
to the source code as well; they enter the embedding as explicit inputs or
as environment functions, exactly at the call sites the Python code uses.
-/

namespace MLClient

/-! ## Definitions

Shallow embedding of app/features.py and app/worker.py, followed by the
concrete stores and environments used as witnesses. -/

/-! ### features.py -/

/-- Dot product of two real vectors, as np.dot on 1-d arrays
(summing over the common prefix; the sources only apply it to
equal-length vectors). -/
def dot : List ℝ → List ℝ → ℝ
  | [], _ => 0
  | _, [] => 0
  | a :: as, b :: bs => a * b + dot as bs

/-- Euclidean norm np.linalg.norm of a real vector. -/
noncomputable def l2norm (v : List ℝ) : ℝ :=
  Real.sqrt (dot v v)

/-- Embedding of features.extract_features after the librosa call:
the argument vec is np.mean(mfcc, axis=1), the mean cepstral (MFCC)
vector of the clip, produced by the opaque librosa.feature.mfcc call.
The function body mirrors the source exactly:
norm = np.linalg.norm(vec); if norm == 0: return np.zeros_like(vec);
return vec / norm. -/
noncomputable def extract_features (vec : List ℝ) : List ℝ :=
  let norm := l2norm vec
  if norm = 0 then List.replicate vec.length 0
  else vec.map (fun x => x / norm)

/-- Embedding of features.cosine_sim:
denom = np.linalg.norm(a) * np.linalg.norm(b);
if denom == 0: return 0.0; return np.dot(a, b) / denom. -/
noncomputable def cosine_sim (a b : List ℝ) : ℝ :=
  let denom := l2norm a * l2norm b
  if denom = 0 then 0
  else dot a b / denom

/-- Embedding of features.extract_features_audio after the librosa calls:
the six scalar descriptors rms, centroid, bandwidth, zcr, tempo and
flatness are each the output of an opaque librosa aggregate
(librosa.feature.rms(y=y).mean() and so on) and enter as parameters.
The assembly of the 8-component vector mirrors the source exactly,
including the derived descriptors and the 1e-6 guard in valence. -/
def extract_features_audio (rms centroid bandwidth zcr tempo flatness : ℚ) :
    List ℚ :=
  let acousticness := 1 - flatness
  let danceability := 1 - zcr
  let energy := rms
  let instrumentalness := bandwidth
  let liveness := centroid
  let speechiness := zcr
  let tempo_feat := tempo
  let valence := centroid / (centroid + bandwidth + 1 / 1000000)
  [acousticness, danceability, energy, instrumentalness,
   liveness, speechiness, tempo_feat, valence]

/-! ### worker.py : data model

Tasks live in the tasks collection; the web app creates them with
status pending together with an initial entry in the classifications
collection keyed by the task id. MongoDB document ids are modelled as
naturals, document stores as lists of records. -/

structure Task where
  id : ℕ
  status : String
  gridfs_id : ℕ
  filename : String
  error_message : Option String := none
  predicted_genre : Option String := none
deriving Repr, DecidableEq

structure Classification where
  task_id : ℕ
  classification : Option String := none
  confidence : Option ℚ := none
deriving Repr, DecidableEq

structure DB where
  tasks : List Task
  classifications : List Classification
deriving Repr, DecidableEq

/-- Embedding of the single atomic claim call in process_one:
tasks_collection.find_one_and_update with filter status equal to pending
and update setting status to processing. MongoDB applies the filter and the
update as one atomic read-modify-write on the first matching document and
returns the pre-image document (pymongo default ReturnDocument.BEFORE);
here the whole function application is the one atomic step. -/
def find_one_and_update_pending : List Task → Option Task × List Task
  | [] => (none, [])
  | t :: ts =>
    if t.status = "pending" then
      (some t, { t with status := "processing" } :: ts)
    else
      ((find_one_and_update_pending ts).1,
       t :: (find_one_and_update_pending ts).2)

/-- Embedding of tasks_collection.update_one with an id filter and a set
update: the first document whose id matches is updated in place. -/
def update_one_by_id (tasks : List Task) (i : ℕ) (f : Task → Task) :
    List Task :=
  match tasks with
  | [] => []
  | t :: ts => if t.id = i then f t :: ts else t :: update_one_by_id ts i f

/-- Embedding of db.classifications.update_one with a task_id filter,
setting the classification, confidence and timestamp fields on the first
matching document (the web app created the initial entry). -/
def update_classification (cs : List Classification) (tid : ℕ)
    (genre : String) (conf : ℚ) : List Classification :=
  match cs with
  | [] => []
  | c :: rest =>
    if c.task_id = tid then
      { c with classification := some genre, confidence := some conf } :: rest
    else c :: update_classification rest tid genre conf

/-- First task with a given id, as a MongoDB find-one by id. -/
def lookupTask (tasks : List Task) (i : ℕ) : Option Task :=
  tasks.find? (fun t => t.id == i)

/-- First classification with a given task_id. -/
def lookupClassification (cs : List Classification) (tid : ℕ) :
    Option Classification :=
  cs.find? (fun c => c.task_id == tid)

def isPending (t : Task) : Bool := t.status == "pending"

def isProcessing (t : Task) : Bool := t.status == "processing"

/-! ### worker.py : process_one

Every call the worker makes into an external library (GridFS read and
soundfile decoding, librosa feature extraction, the joblib model, the
label encoder, the MongoDB writes) can either return a value or raise;
these calls enter the embedding as environment functions returning
Except String so that exception flow is explicit. The writes carry their
deterministic effect on the store separately. -/

structure WorkerEnv where
  claim_exc : Option String
  read_audio : ℕ → Except String (List ℚ × ℕ)
  extract : List ℚ × ℕ → Except String (List ℚ)
  predict_proba : List ℚ → Except String (List ℚ)
  classes : List String
  predict : List ℚ → Except String String
  inverse_transform : String → Except String String
  classifications_write : Except String Unit
  mark_done_write : Except String Unit
  mark_error_write : Except String Unit

/-- Index of the first maximum of a list, as np.argmax on a 1-d array. -/
def argmaxAux (l : List ℚ) (i bi : ℕ) (bv : ℚ) : ℕ :=
  match l with
  | [] => bi
  | x :: xs =>
    if bv < x then argmaxAux xs (i + 1) i x else argmaxAux xs (i + 1) bi bv

def argmax? : List ℚ → Option ℕ
  | [] => none
  | x :: xs => some (argmaxAux xs 1 0 x)

/-- Embedding of the probability branch of the inner try in process_one:
proba = model.predict_proba(feature_vector)[0]; idx = int(np.argmax(proba));
predicted_label = model.classes_[idx]; confidence = float(proba[idx]).
Any failure inside the branch is an error value, which the inner except
turns into the hard-prediction fallback. -/
def proba_path (env : WorkerEnv) (fv : List ℚ) : Except String (String × ℚ) :=
  match env.predict_proba fv with
  | .error e => .error e
  | .ok proba =>
    match argmax? proba with
    | none => .error "attempt to get argmax of an empty sequence"
    | some idx =>
      match env.classes.get? idx with
      | none => .error "index out of range"
      | some lab =>
        match proba.get? idx with
        | none => .error "index out of range"
        | some c => .ok (lab, c)

/-- Embedding of the inner try/except of process_one: on any failure of the
probability branch fall back to model.predict with confidence 1.0; a
failure of model.predict itself escapes to the outer handler. -/
def classify_step (env : WorkerEnv) (fv : List ℚ) :
    Except String (String × ℚ) :=
  match proba_path env fv with
  | .ok r => .ok r
  | .error _ =>
    match env.predict fv with
    | .ok lab => .ok (lab, 1)
    | .error e => .error e

/-- Embedding of the label-decoding try/except of process_one: on failure
of label_encoder.inverse_transform the raw predicted label is used. -/
def decode_label (env : WorkerEnv) (lab : String) : String :=
  match env.inverse_transform lab with
  | .ok g => g
  | .error _ => lab

/-- Outcome of a call to process_one: a normal boolean return, or an
exception propagating out of the function. -/
inductive PResult where
  | ret : Bool → PResult
  | raised : String → PResult
deriving Repr, DecidableEq

/-- Embedding of the outer except block of process_one: it writes
status error and the exception message to the task with update_one and
returns False. The write itself is not guarded in the source, so its
failure propagates out of process_one. -/
def handle_task_error (env : WorkerEnv) (db : DB) (task : Task)
    (msg : String) : PResult × DB :=
  match env.mark_error_write with
  | .error e2 => (.raised e2, db)
  | .ok _ =>
    let ts := update_one_by_id db.tasks task.id
      (fun t => { t with status := "error", error_message := some msg })
    (.ret false, { db with tasks := ts })

/-- Embedding of the body of the outer try of process_one for a claimed
task: GridFS read, feature extraction, classification, label decoding,
classification write, mark-done write. An error value carries the store
state reached before the failing call. -/
def attempt_task (env : WorkerEnv) (db : DB) (task : Task) :
    Except (String × DB) (DB × String × ℚ) :=
  match env.read_audio task.gridfs_id with
  | .error e => .error (e, db)
  | .ok audio =>
    match env.extract audio with
    | .error e => .error (e, db)
    | .ok fv =>
      match classify_step env fv with
      | .error e => .error (e, db)
      | .ok (lab, conf) =>
        let genre := decode_label env lab
        match env.classifications_write with
        | .error e => .error (e, db)
        | .ok _ =>
          let db1 := { db with classifications :=
            update_classification db.classifications task.id genre conf }
          match env.mark_done_write with
          | .error e => .error (e, db1)
          | .ok _ => .ok (db1, genre, conf)

/-- Processing of a claimed task: the try body, then either the mark-done
transition or the outer except handler. -/
def run_claimed (env : WorkerEnv) (db : DB) (task : Task) : PResult × DB :=
  match attempt_task env db task with
  | .error (e, db') => handle_task_error env db' task e
  | .ok (db', genre, _conf) =>
    let ts := update_one_by_id db'.tasks task.id
      (fun t => { t with status := "done", predicted_genre := some genre })
    (.ret true, { db' with tasks := ts })

/-- Embedding of worker.process_one: claim with find_one_and_update inside
a try whose except returns False; None claim returns False; otherwise the
claimed task is processed. -/
def process_one (env : WorkerEnv) (db : DB) : PResult × DB :=
  match env.claim_exc with
  | some _ => (.ret false, db)
  | none =>
    match find_one_and_update_pending db.tasks with
    | (none, ts) => (.ret false, { db with tasks := ts })
    | (some task, ts) => run_claimed env { db with tasks := ts } task

def classifiedDB (db : DB) (tid : ℕ) (g : String) (conf : ℚ) : DB :=
  { db with
    classifications := update_classification db.classifications tid g conf }

/-! ### worker.py : process_loop backoff -/

/-- Embedding of one iteration of the while body of worker.process_loop:
from the current idle_ticks and the boolean returned by process_one it
yields the new idle_ticks and the sleep performed this tick (none after a
processed task, because the source continues without sleeping):
on work idle_ticks becomes 0; otherwise
idle_ticks = min(idle_ticks + 1, 10) and the tick sleeps
min(poll_interval * idle_ticks, 5.0). -/
def loop_step (poll : ℚ) (idle : ℕ) (worked : Bool) : ℕ × Option ℚ :=
  if worked then (0, none)
  else (min (idle + 1) 10, some (min (poll * ((min (idle + 1) 10 : ℕ) : ℚ)) 5))

/-- Trace of loop_step over a finite sequence of tick outcomes. -/
def loop_trace (poll : ℚ) : ℕ → List Bool → List (ℕ × Option ℚ)
  | _, [] => []
  | idle, w :: ws =>
    loop_step poll idle w :: loop_trace poll (loop_step poll idle w).1 ws

/-- Sleep durations performed along a trace. -/
def sleeps (tr : List (ℕ × Option ℚ)) : List ℚ := tr.filterMap Prod.snd

/-! ### Concrete stores and environments for the witnesses -/

def task0 : Task :=
  { id := 1, status := "pending", gridfs_id := 7, filename := "song.wav" }

def task0proc : Task := { task0 with status := "processing" }

def task0err : Task :=
  { task0 with status := "error", error_message := some "audio decode failed" }

def dbOneTask : DB :=
  { tasks := [task0], classifications := [{ task_id := 1 }] }

def dbEmpty : DB := { tasks := [], classifications := [] }

def envIdle : WorkerEnv :=
  { claim_exc := none
    read_audio := fun _ => .error "unused"
    extract := fun _ => .error "unused"
    predict_proba := fun _ => .error "unused"
    classes := []
    predict := fun _ => .error "unused"
    inverse_transform := fun _ => .error "unused"
    classifications_write := .ok ()
    mark_done_write := .ok ()
    mark_error_write := .ok () }

def envReadFails : WorkerEnv :=
  { envIdle with read_audio := fun _ => .error "audio decode failed" }

def envMarkErrorFails : WorkerEnv :=
  { envIdle with
    read_audio := fun _ => .error "blob missing"
    mark_error_write := .error "connection reset" }

def env4 : WorkerEnv :=
  { envIdle with
    read_audio := fun _ => .ok ([1, 0], 22050)
    extract := fun _ => .ok [2, 3]
    predict_proba := fun _ => .ok [1 / 5, 4 / 5]
    classes := ["rock", "hiphop"]
    inverse_transform := fun _ => .error "unseen label" }

def envMalformed : WorkerEnv :=
  { envIdle with
    read_audio := fun _ => .ok ([0, 0], 22050)
    extract := fun _ => .ok [1, 2, 3]
    predict_proba := fun v =>
      if v.length = 3 then .ok [1] else .error "bad shape"
    classes := ["rock"]
    inverse_transform := fun s => .ok s }

/-! ## Theorems -/

theorem dot_self_nonneg (v : List ℝ) : 0 ≤ dot v v := by
  induction v with
  | nil => simp [dot]
  | cons a as ih =>
    simp only [dot]
    have : 0 ≤ a * a := mul_self_nonneg a
    linarith

theorem l2norm_nonneg (v : List ℝ) : 0 ≤ l2norm v :=
  Real.sqrt_nonneg _

theorem l2norm_sq (v : List ℝ) : l2norm v * l2norm v = dot v v := by
  simpa [l2norm] using Real.mul_self_sqrt (dot_self_nonneg v)

theorem l2norm_eq_zero_iff (v : List ℝ) : l2norm v = 0 ↔ dot v v = 0 := by
  constructor
  · intro h
    have := l2norm_sq v
    rw [h] at this
    linarith
  · intro h
    simp [l2norm, h]

theorem dot_map_smul (c : ℝ) (v w : List ℝ) :
    dot (v.map (fun x => x / c)) (w.map (fun x => x / c)) =
      dot v w / (c * c) := by
  induction v generalizing w with
  | nil => simp [dot]
  | cons a as ih =>
    cases w with
    | nil => simp [dot]
    | cons b bs =>
      simp only [List.map, dot, ih]
      ring

theorem dot_self_eq_zero_iff (v : List ℝ) :
    dot v v = 0 ↔ ∀ x ∈ v, x = 0 := by
  induction v with
  | nil => simp [dot]
  | cons a as ih =>
    simp only [dot, List.mem_cons]
    constructor
    · intro h
      have ha : 0 ≤ a * a := mul_self_nonneg a
      have hd : 0 ≤ dot as as := dot_self_nonneg as
      have ha0 : a * a = 0 := by linarith
      have hd0 : dot as as = 0 := by linarith
      intro x hx
      rcases hx with hx | hx
      · subst hx
        exact (mul_self_eq_zero).1 ha0
      · exact ih.1 hd0 x hx
    · intro h
      have ha : a = 0 := h a (Or.inl rfl)
      have : dot as as = 0 := ih.2 (fun x hx => h x (Or.inr hx))
      simp [ha, this]

theorem l2norm_extract_features (v : List ℝ) (h : l2norm v ≠ 0) :
    l2norm (extract_features v) = 1 := by
  have hc : dot v v ≠ 0 := fun h0 => h ((l2norm_eq_zero_iff v).2 h0)
  have hv : extract_features v = v.map (fun x => x / l2norm v) := by
    simp [extract_features, h]
  rw [hv]
  unfold l2norm
  rw [dot_map_smul, Real.mul_self_sqrt (dot_self_nonneg v), div_self hc,
    Real.sqrt_one]

/-- C8: extract_features divides the mean cepstral vector by its L2 norm,
so on any input whose mean cepstral vector is nonzero the output has norm
within 1e-3 of 1 (it is exactly 1 in real arithmetic), renormalizing the
output again keeps the norm within 1e-3 of 1, and on a zero-norm input the
all-zero vector of the same length is returned. -/
theorem extract_features_normalized (v : List ℝ) :
    (l2norm v ≠ 0 →
      |l2norm (extract_features v) - 1| ≤ 1 / 1000 ∧
      |l2norm (extract_features (extract_features v)) - 1| ≤ 1 / 1000) ∧
    (l2norm v = 0 → extract_features v = List.replicate v.length 0) := by
  constructor
  · intro h
    have h1 : l2norm (extract_features v) = 1 := l2norm_extract_features v h
    have h1' : l2norm (extract_features v) ≠ 0 := by rw [h1]; norm_num
    have h2 : l2norm (extract_features (extract_features v)) = 1 :=
      l2norm_extract_features _ h1'
    rw [h1, h2]
    norm_num
  · intro h
    simp [extract_features, h]

theorem extract_features_normalized_witness :
    |l2norm (extract_features [(3 : ℝ), 4]) - 1| ≤ 1 / 1000 ∧
    extract_features ([] : List ℝ) = List.replicate 0 0 := by
  constructor
  · have h : l2norm [(3 : ℝ), 4] ≠ 0 := by
      intro h0
      have h25 : dot [(3 : ℝ), 4] [3, 4] = 25 := by norm_num [dot]
      rw [l2norm_eq_zero_iff, h25] at h0
      norm_num at h0
    exact ((extract_features_normalized [3, 4]).1 h).1
  · exact (extract_features_normalized []).2 (by simp [l2norm, dot])

/-- C9: cosine_sim of a nonzero vector with itself is 1; cosine_sim of
orthogonal vectors (zero dot product) is 0; and whenever either argument
is a zero vector the result is exactly 0 rather than NaN or an error
(the source guards the zero denominator explicitly). -/
theorem cosine_sim_properties :
    (∀ v : List ℝ, (∃ x ∈ v, x ≠ 0) → cosine_sim v v = 1) ∧
    (∀ a b : List ℝ, dot a b = 0 → cosine_sim a b = 0) ∧
    (∀ (n : ℕ) (b : List ℝ),
      cosine_sim (List.replicate n 0) b = 0 ∧
      cosine_sim b (List.replicate n 0) = 0) := by
  have hrep : ∀ n : ℕ, l2norm (List.replicate n (0 : ℝ)) = 0 := by
    intro n
    rw [l2norm_eq_zero_iff, dot_self_eq_zero_iff]
    intro x hx
    exact (List.eq_of_mem_replicate hx)
  refine ⟨?_, ?_, ?_⟩
  · intro v hv
    have hdot : dot v v ≠ 0 := by
      rw [Ne, dot_self_eq_zero_iff]
      intro hall
      rcases hv with ⟨x, hx, hx0⟩
      exact hx0 (hall x hx)
    simp only [cosine_sim]
    rw [l2norm_sq, if_neg hdot, div_self hdot]
  · intro a b hab
    simp only [cosine_sim]
    by_cases h : l2norm a * l2norm b = 0
    · rw [if_pos h]
    · rw [if_neg h, hab, zero_div]
  · intro n b
    constructor
    · simp only [cosine_sim]
      rw [hrep n, zero_mul, if_pos rfl]
    · simp only [cosine_sim]
      rw [hrep n, mul_zero, if_pos rfl]

theorem cosine_sim_properties_witness :
    cosine_sim [(3 : ℝ), 4] [3, 4] = 1 ∧
    cosine_sim [(1 : ℝ), 0] [0, 1] = 0 := by
  constructor
  · exact cosine_sim_properties.1 [3, 4] ⟨3, by simp, by norm_num⟩
  · exact cosine_sim_properties.2.1 [1, 0] [0, 1] (by norm_num [dot])

/-- C10: the 8-component vector of extract_features_audio always satisfies
danceability + speechiness = 1, because component 1 is 1 - zcr and
component 5 is zcr, both taken from the same mean zero-crossing-rate. -/
theorem extract_features_audio_redundant
    (rms centroid bandwidth zcr tempo flatness : ℚ) :
    (extract_features_audio rms centroid bandwidth zcr tempo flatness).length
        = 8 ∧
    (extract_features_audio rms centroid bandwidth zcr tempo flatness).getD 1 0
      + (extract_features_audio rms centroid bandwidth zcr tempo
          flatness).getD 5 0 = 1 := by
  refine ⟨by simp [extract_features_audio], ?_⟩
  simp [extract_features_audio]

theorem isPending_iff (t : Task) : isPending t = true ↔ t.status = "pending" := by
  rw [isPending]
  exact beq_iff_eq ..

theorem find_one_none (ts : List Task) (h : ts.countP isPending = 0) :
    find_one_and_update_pending ts = (none, ts) := by
  induction ts with
  | nil => rfl
  | cons t ts ih =>
    rw [List.countP_cons] at h
    have hp : isPending t = false := by
      cases hb : isPending t
      · rfl
      · simp [hb] at h
    have ht : ¬ t.status = "pending" := by
      intro hs
      rw [← isPending_iff] at hs
      rw [hs] at hp
      exact Bool.noConfusion hp
    have h0 : ts.countP isPending = 0 := by
      rw [hp] at h
      simpa using h
    rw [find_one_and_update_pending, if_neg ht, ih h0]

theorem find_one_some_of_pos (ts : List Task)
    (h : ts.countP isPending ≠ 0) :
    ∃ t rest, find_one_and_update_pending ts = (some t, rest) := by
  induction ts with
  | nil => simp [List.countP_nil] at h
  | cons t ts ih =>
    by_cases ht : t.status = "pending"
    · exact ⟨t, { t with status := "processing" } :: ts, by
        rw [find_one_and_update_pending, if_pos ht]⟩
    · have hp : isPending t = false := by
        cases hb : isPending t
        · rfl
        · exact absurd (isPending_iff t |>.1 hb) ht
      rw [List.countP_cons, hp] at h
      simp only [Bool.false_eq_true, if_false, add_zero] at h
      obtain ⟨t', rest', hr⟩ := ih h
      refine ⟨t', t :: rest', ?_⟩
      rw [find_one_and_update_pending, if_neg ht, hr]

theorem find_one_some_spec (ts : List Task) (t : Task) (rest : List Task)
    (h : find_one_and_update_pending ts = (some t, rest)) :
    t.status = "pending" ∧
    rest.countP isPending = ts.countP isPending - 1 ∧
    rest.countP isProcessing = ts.countP isProcessing + 1 := by
  induction ts generalizing rest with
  | nil => simp [find_one_and_update_pending] at h
  | cons a as ih =>
    by_cases ha : a.status = "pending"
    · rw [find_one_and_update_pending, if_pos ha, Prod.mk.injEq] at h
      obtain ⟨h1, h2⟩ := h
      obtain rfl : a = t := Option.some.inj h1
      subst h2
      have hpa : isPending a = true := (isPending_iff a).2 ha
      have hpa' : isPending { a with status := "processing" } = false := by
        rw [isPending]
        rfl
      have hqa : isProcessing a = false := by
        rw [isProcessing, ha]
        rfl
      have hqa' : isProcessing { a with status := "processing" } = true := by
        rw [isProcessing]
        rfl
      refine ⟨ha, ?_, ?_⟩
      · rw [List.countP_cons, List.countP_cons, hpa, hpa']
        simp
      · rw [List.countP_cons, List.countP_cons, hqa, hqa']
        simp
    · rw [find_one_and_update_pending, if_neg ha] at h
      cases hr : find_one_and_update_pending as with
      | mk o rest' =>
        rw [hr, Prod.mk.injEq] at h
        obtain ⟨h1, h2⟩ := h
        simp only at h1 h2
        subst h2
        obtain ⟨hp, hc1, hc2⟩ := ih rest' (by rw [hr, h1])
        have hap : isPending a = false := by
          cases hb : isPending a
          · rfl
          · exact absurd (isPending_iff a |>.1 hb) ha
        have has : as.countP isPending ≠ 0 := by
          intro h0
          rw [find_one_none as h0] at hr
          rw [show o = none from (Prod.mk.injEq .. ▸ hr : _ ∧ _).1.symm] at h1
          exact Option.noConfusion h1
        refine ⟨hp, ?_, ?_⟩
        · rw [List.countP_cons, List.countP_cons, hap]
          simp only [Bool.false_eq_true, if_false, add_zero]
          omega
        · rw [List.countP_cons, List.countP_cons]
          omega

/-- C1: the claim is one atomic read-modify-write taking the task from
pending to processing, so with a single pending task in the store the
two possible serializations of two racing callers both give the task to
exactly one caller: the first call returns the task, leaves zero pending
tasks and one more processing task, and the second call returns none and
leaves the store untouched. -/
theorem claim_exclusive (ts : List Task)
    (h : ts.countP isPending = 1) :
    ∃ t rest, find_one_and_update_pending ts = (some t, rest) ∧
      t.status = "pending" ∧
      rest.countP isPending = 0 ∧
      rest.countP isProcessing = ts.countP isProcessing + 1 ∧
      find_one_and_update_pending rest = (none, rest) := by
  obtain ⟨t, rest, hr⟩ := find_one_some_of_pos ts (by omega)
  obtain ⟨hp, hc1, hc2⟩ := find_one_some_spec ts t rest hr
  have h0 : rest.countP isPending = 0 := by omega
  exact ⟨t, rest, hr, hp, h0, hc2, find_one_none rest h0⟩

theorem claim_exclusive_witness :
    ([task0].countP isPending = 1) ∧
    (∃ t rest, find_one_and_update_pending [task0] = (some t, rest) ∧
      t.status = "pending" ∧
      rest.countP isPending = 0 ∧
      rest.countP isProcessing = [task0].countP isProcessing + 1 ∧
      find_one_and_update_pending rest = (none, rest)) :=
  ⟨by decide, claim_exclusive [task0] (by decide)⟩

theorem lookupTask_update_one (ts : List Task) (i : ℕ) (f : Task → Task)
    (hf : ∀ t, (f t).id = t.id) :
    lookupTask (update_one_by_id ts i f) i = (lookupTask ts i).map f := by
  induction ts with
  | nil => rfl
  | cons t ts ih =>
    by_cases ht : t.id = i
    · rw [update_one_by_id, if_pos ht]
      rw [lookupTask, lookupTask, List.find?_cons, List.find?_cons]
      have h1 : (t.id == i) = true := beq_iff_eq .. |>.2 ht
      have h2 : ((f t).id == i) = true := beq_iff_eq .. |>.2 (by rw [hf t, ht])
      rw [h1, h2]
      rfl
    · rw [update_one_by_id, if_neg ht]
      rw [lookupTask, lookupTask, List.find?_cons, List.find?_cons]
      have h1 : (t.id == i) = false := by
        cases hb : (t.id == i)
        · rfl
        · exact absurd (beq_iff_eq .. |>.1 hb) ht
      rw [h1]
      exact ih

theorem lookupClassification_update (cs : List Classification) (tid : ℕ)
    (g : String) (conf : ℚ) :
    lookupClassification (update_classification cs tid g conf) tid =
      (lookupClassification cs tid).map
        (fun c =>
          { c with classification := some g, confidence := some conf }) := by
  induction cs with
  | nil => rfl
  | cons c cs ih =>
    by_cases hc : c.task_id = tid
    · rw [update_classification, if_pos hc]
      rw [lookupClassification, lookupClassification,
        List.find?_cons, List.find?_cons]
      have h1 : (c.task_id == tid) = true := beq_iff_eq .. |>.2 hc
      rw [h1]
      rfl
    · rw [update_classification, if_neg hc]
      rw [lookupClassification, lookupClassification,
        List.find?_cons, List.find?_cons]
      have h1 : (c.task_id == tid) = false := by
        cases hb : (c.task_id == tid)
        · rfl
        · exact absurd (beq_iff_eq .. |>.1 hb) hc
      rw [h1]
      exact ih

theorem find_one_some_mem (ts : List Task) (t : Task) (rest : List Task)
    (h : find_one_and_update_pending ts = (some t, rest)) : t ∈ ts := by
  induction ts generalizing rest with
  | nil => simp [find_one_and_update_pending] at h
  | cons a as ih =>
    by_cases ha : a.status = "pending"
    · rw [find_one_and_update_pending, if_pos ha, Prod.mk.injEq] at h
      obtain rfl : a = t := Option.some.inj h.1
      exact List.mem_cons_self a as
    · rw [find_one_and_update_pending, if_neg ha, Prod.mk.injEq] at h
      cases hr : find_one_and_update_pending as with
      | mk o rest' =>
        rw [hr] at h
        simp only at h
        exact List.mem_cons_of_mem a (ih rest' (by rw [hr, h.1]))

theorem find_one_some_lookup (ts : List Task) (t : Task) (rest : List Task)
    (hids : (ts.map Task.id).Nodup)
    (h : find_one_and_update_pending ts = (some t, rest)) :
    lookupTask rest t.id = some { t with status := "processing" } := by
  induction ts generalizing rest with
  | nil => simp [find_one_and_update_pending] at h
  | cons a as ih =>
    by_cases ha : a.status = "pending"
    · rw [find_one_and_update_pending, if_pos ha, Prod.mk.injEq] at h
      obtain ⟨h1, h2⟩ := h
      obtain rfl : a = t := Option.some.inj h1
      subst h2
      rw [lookupTask, List.find?_cons]
      have : (({ a with status := "processing" } : Task).id == a.id) = true :=
        beq_iff_eq .. |>.2 rfl
      rw [this]
    · rw [find_one_and_update_pending, if_neg ha, Prod.mk.injEq] at h
      cases hr : find_one_and_update_pending as with
      | mk o rest' =>
        rw [hr] at h
        simp only at h
        obtain ⟨h1, h2⟩ := h
        subst h2
        have hmem : t ∈ as := find_one_some_mem as t rest' (by rw [hr, h1])
        rw [List.map_cons, List.nodup_cons] at hids
        have hne : a.id ≠ t.id := by
          intro he
          exact hids.1 (he ▸ List.mem_map_of_mem Task.id hmem)
        rw [lookupTask, List.find?_cons]
        have hb : (a.id == t.id) = false := by
          cases hbb : (a.id == t.id)
          · rfl
          · exact absurd (beq_iff_eq .. |>.1 hbb) hne
        rw [hb]
        exact ih rest' hids.2 (by rw [hr, h1])

theorem attempt_task_error_tasks (env : WorkerEnv) (db : DB) (task : Task)
    (e : String) (db' : DB)
    (h : attempt_task env db task = .error (e, db')) : db'.tasks = db.tasks := by
  rw [attempt_task] at h
  repeat' split at h
  all_goals
    first
      | (simp only [Except.error.injEq, Prod.mk.injEq] at h; rw [← h.2])
      | simp at h

/-- C2: for a claimed task, failure of any step of the task body
(GridFS fetch, feature extraction, classification, or either persistence
write) is caught at the task boundary: given that the error-marking write
itself succeeds, process_one returns False and the task ends in
status error carrying the message of the exception; nothing propagates. -/
theorem process_one_catches_task_failures (env : WorkerEnv) (db : DB)
    (task : Task) (ts' : List Task) (e : String) (db' : DB)
    (hclaim : env.claim_exc = none)
    (hfind : find_one_and_update_pending db.tasks = (some task, ts'))
    (hfail : attempt_task env { db with tasks := ts' } task = .error (e, db'))
    (hmark : env.mark_error_write = .ok ())
    (hids : (db.tasks.map Task.id).Nodup) :
    (process_one env db).1 = .ret false ∧
    lookupTask (process_one env db).2.tasks task.id =
      some { task with status := "error", error_message := some e } := by
  have hpo : process_one env db = run_claimed env { db with tasks := ts' } task := by
    simp only [process_one, hclaim, hfind]
  have hrc : run_claimed env { db with tasks := ts' } task =
      handle_task_error env db' task e := by
    simp only [run_claimed, hfail]
  have hts : db'.tasks = ts' := by
    simpa using attempt_task_error_tasks env { db with tasks := ts' } task e db' hfail
  have hlook : lookupTask ts' task.id = some { task with status := "processing" } :=
    find_one_some_lookup db.tasks task ts' hids hfind
  rw [hpo, hrc]
  simp only [handle_task_error, hmark]
  refine ⟨trivial, ?_⟩
  rw [lookupTask_update_one db'.tasks task.id
      (fun t => { t with status := "error", error_message := some e })
      (fun t => rfl),
    hts, hlook]
  rfl

theorem process_one_catches_task_failures_witness :
    (process_one envReadFails dbOneTask).1 = .ret false ∧
    lookupTask (process_one envReadFails dbOneTask).2.tasks task0.id =
      some task0err :=
  process_one_catches_task_failures envReadFails dbOneTask task0 [task0proc]
    "audio decode failed"
    { tasks := [task0proc], classifications := [{ task_id := 1 }] }
    rfl (by decide) rfl rfl (by decide)

/-- C6 (amended): the error-marking write in the except handler of
process_one is not guarded, so when a claimed task fails and the
status-error update itself fails, the write failure propagates out of
process_one instead of being absorbed, and the task is left in status
processing with no error recorded; only the catch-all of main keeps the
worker process alive. -/
theorem mark_error_write_failure_propagates (env : WorkerEnv) (db : DB)
    (task : Task) (ts' : List Task) (e e2 : String) (db' : DB)
    (hclaim : env.claim_exc = none)
    (hfind : find_one_and_update_pending db.tasks = (some task, ts'))
    (hfail : attempt_task env { db with tasks := ts' } task = .error (e, db'))
    (hmark : env.mark_error_write = .error e2)
    (hids : (db.tasks.map Task.id).Nodup) :
    (process_one env db).1 = .raised e2 ∧
    lookupTask (process_one env db).2.tasks task.id =
      some { task with status := "processing" } := by
  have hpo : process_one env db = run_claimed env { db with tasks := ts' } task := by
    simp only [process_one, hclaim, hfind]
  have hrc : run_claimed env { db with tasks := ts' } task =
      handle_task_error env db' task e := by
    simp only [run_claimed, hfail]
  have hts : db'.tasks = ts' := by
    simpa using attempt_task_error_tasks env { db with tasks := ts' } task e db' hfail
  have hlook : lookupTask ts' task.id = some { task with status := "processing" } :=
    find_one_some_lookup db.tasks task ts' hids hfind
  rw [hpo, hrc]
  simp only [handle_task_error, hmark]
  exact ⟨trivial, by rw [hts, hlook]⟩

/-- C6 counterexample: with one claimed task whose blob fetch fails and a
store that fails the status-error update, process_one raises the write
failure rather than absorbing it, refuting the claim that every failure of
the error-marking write is logged and absorbed inside process_one. -/
theorem mark_error_write_failure_counterexample :
    (process_one envMarkErrorFails dbOneTask).1 =
      PResult.raised "connection reset" := by
  decide

theorem mark_error_write_failure_witness :
    (process_one envMarkErrorFails dbOneTask).1 = .raised "connection reset" ∧
    lookupTask (process_one envMarkErrorFails dbOneTask).2.tasks task0.id =
      some task0proc :=
  mark_error_write_failure_propagates envMarkErrorFails dbOneTask task0
    [task0proc] "blob missing" "connection reset"
    { tasks := [task0proc], classifications := [{ task_id := 1 }] }
    rfl (by decide) rfl rfl (by decide)

/-- C7: process_one signals no work without error in exactly the two ways
of the source: a raised store error during the claim is caught and returns
False with the store untouched, and an empty pending set makes
find_one_and_update return None so process_one returns False with the
store untouched; in both cases nothing propagates. -/
theorem process_one_no_work (env : WorkerEnv) (db : DB) :
    (∀ e, env.claim_exc = some e → process_one env db = (.ret false, db)) ∧
    (env.claim_exc = none → db.tasks.countP isPending = 0 →
      process_one env db = (.ret false, db)) := by
  constructor
  · intro e he
    simp only [process_one, he]
  · intro hn h0
    simp only [process_one, hn, find_one_none db.tasks h0]

theorem process_one_no_work_witness :
    process_one { envIdle with claim_exc := some "timeout" } dbEmpty =
      (.ret false, dbEmpty) ∧
    process_one envIdle dbEmpty = (.ret false, dbEmpty) :=
  ⟨(process_one_no_work { envIdle with claim_exc := some "timeout" } dbEmpty).1
      "timeout" rfl,
   (process_one_no_work envIdle dbEmpty).2 rfl (by decide)⟩

theorem loop_step_true (poll : ℚ) (idle : ℕ) :
    loop_step poll idle true = (0, none) := rfl

theorem loop_step_false (poll : ℚ) (idle : ℕ) :
    loop_step poll idle false =
      (min (idle + 1) 10,
       some (min (poll * ((min (idle + 1) 10 : ℕ) : ℚ)) 5)) := rfl

theorem sleeps_le_cap (poll : ℚ) :
    ∀ (ws : List Bool) (idle : ℕ),
      ∀ s ∈ sleeps (loop_trace poll idle ws), s ≤ 5 := by
  intro ws
  induction ws with
  | nil =>
    intro idle s hs
    simp [loop_trace, sleeps] at hs
  | cons w ws ih =>
    intro idle s hs
    cases w
    · rw [loop_trace, loop_step_false, sleeps, List.filterMap_cons] at hs
      simp only [List.mem_cons] at hs
      rcases hs with h | h
      · rw [h]
        exact min_le_right _ _
      · exact ih _ s h
    · rw [loop_trace, loop_step_true, sleeps, List.filterMap_cons] at hs
      exact ih _ s hs

theorem sleeps_chain (poll : ℚ) (hpoll : 0 ≤ poll) :
    ∀ (n idle : ℕ), idle ≤ 10 →
      List.Chain' (fun a b => a ≤ b)
        (sleeps (loop_trace poll idle (List.replicate n false))) := by
  intro n
  induction n with
  | zero =>
    intro idle _
    simp [loop_trace, sleeps]
  | succ n ih =>
    intro idle hidle
    cases n with
    | zero =>
      simp [loop_trace, loop_step_false, sleeps]
    | succ m =>
      rw [List.replicate_succ, loop_trace, loop_step_false, sleeps,
        List.filterMap_cons]
      have hl : sleeps (loop_trace poll (min (idle + 1) 10)
          (List.replicate (m + 1) false)) =
          min (poll * ((min (min (idle + 1) 10 + 1) 10 : ℕ) : ℚ)) 5 ::
          sleeps (loop_trace poll (min (min (idle + 1) 10 + 1) 10)
            (List.replicate m false)) := by
        rw [List.replicate_succ, loop_trace, loop_step_false, sleeps,
          List.filterMap_cons]
        rfl
      have hchain : List.Chain' (fun a b => a ≤ b)
          (sleeps (loop_trace poll (min (idle + 1) 10)
            (List.replicate (m + 1) false))) :=
        ih (min (idle + 1) 10) (by omega)
      have hle : min (poll * ((min (idle + 1) 10 : ℕ) : ℚ)) 5 ≤
          min (poll * ((min (min (idle + 1) 10 + 1) 10 : ℕ) : ℚ)) 5 := by
        refine min_le_min ?_ (le_refl 5)
        refine mul_le_mul_of_nonneg_left ?_ hpoll
        have hnat : (min (idle + 1) 10 : ℕ) ≤ min (min (idle + 1) 10 + 1) 10 := by
          omega
        exact Nat.cast_le.2 hnat
      rw [hl] at hchain
      exact List.Chain'.cons hle hchain

/-- C3: after an idle tick the counter becomes min(idle_ticks + 1, 10) and
the tick sleeps min(poll_interval * idle_ticks, 5.0); after a worked tick
the counter resets to 0 with no sleep; over any run of consecutive idle
ticks the sleeps are non-decreasing and never exceed the 5.0 cap; and the
first idle sleep after a worked tick is the base poll interval again
(for any poll interval within the cap). -/
theorem process_loop_backoff (poll : ℚ) (hpoll : 0 ≤ poll) :
    (∀ idle, loop_step poll idle false =
      (min (idle + 1) 10,
       some (min (poll * ((min (idle + 1) 10 : ℕ) : ℚ)) 5))) ∧
    (∀ idle, loop_step poll idle true = (0, none)) ∧
    (∀ n idle, idle ≤ 10 →
      List.Chain' (fun a b => a ≤ b)
        (sleeps (loop_trace poll idle (List.replicate n false))) ∧
      (∀ s ∈ sleeps (loop_trace poll idle (List.replicate n false)), s ≤ 5)) ∧
    (poll ≤ 5 → ∀ idle ws,
      sleeps (loop_trace poll idle (true :: false :: ws)) =
        poll :: sleeps (loop_trace poll 1 ws)) := by
  refine ⟨fun idle => loop_step_false poll idle,
    fun idle => loop_step_true poll idle, ?_, ?_⟩
  · intro n idle hidle
    exact ⟨sleeps_chain poll hpoll n idle hidle,
      fun s hs => sleeps_le_cap poll _ idle s hs⟩
  · intro hp5 idle ws
    rw [loop_trace, loop_step_true, loop_trace, loop_step_false, sleeps,
      List.filterMap_cons, List.filterMap_cons]
    have h1 : ((min (0 + 1) 10 : ℕ) : ℚ) = 1 := by norm_num
    rw [h1, mul_one, min_eq_left hp5]
    rfl

theorem process_loop_backoff_witness :
    loop_step 1 0 false = (1, some 1) ∧
    sleeps (loop_trace 1 0 [true, false]) = [1] := by
  have h := process_loop_backoff 1 (by norm_num)
  constructor
  · have h1 := h.1 0
    simpa using h1
  · have h4 := h.2.2.2 (by norm_num) 0 []
    simpa [loop_trace, sleeps] using h4

theorem attempt_task_ok (env : WorkerEnv) (db : DB) (task : Task)
    (audio : List ℚ × ℕ) (fv : List ℚ) (lab : String) (conf : ℚ)
    (hread : env.read_audio task.gridfs_id = .ok audio)
    (hext : env.extract audio = .ok fv)
    (hcls : classify_step env fv = .ok (lab, conf))
    (hw1 : env.classifications_write = .ok ())
    (hw2 : env.mark_done_write = .ok ()) :
    attempt_task env db task =
      .ok (classifiedDB db task.id (decode_label env lab) conf,
           decode_label env lab, conf) := by
  simp only [attempt_task, hread, hext, hcls, hw1, hw2]
  rfl

theorem process_one_success (env : WorkerEnv) (db : DB) (task : Task)
    (ts' : List Task) (audio : List ℚ × ℕ) (fv : List ℚ) (lab : String)
    (conf : ℚ)
    (hclaim : env.claim_exc = none)
    (hfind : find_one_and_update_pending db.tasks = (some task, ts'))
    (hread : env.read_audio task.gridfs_id = .ok audio)
    (hext : env.extract audio = .ok fv)
    (hcls : classify_step env fv = .ok (lab, conf))
    (hw1 : env.classifications_write = .ok ())
    (hw2 : env.mark_done_write = .ok ())
    (hids : (db.tasks.map Task.id).Nodup) :
    (process_one env db).1 = .ret true ∧
    lookupTask (process_one env db).2.tasks task.id =
      some { task with status := "done", predicted_genre := some (decode_label env lab) } ∧
    lookupClassification (process_one env db).2.classifications task.id =
      (lookupClassification db.classifications task.id).map
        (fun c => { c with classification := some (decode_label env lab), confidence := some conf }) := by
  have hpo : process_one env db = run_claimed env { db with tasks := ts' } task := by
    simp only [process_one, hclaim, hfind]
  have hat := attempt_task_ok env { db with tasks := ts' } task audio fv lab
    conf hread hext hcls hw1 hw2
  rw [hpo]
  simp only [run_claimed, hat]
  refine ⟨trivial, ?_, ?_⟩
  · show lookupTask (update_one_by_id ts' task.id
      (fun t => { t with status := "done", predicted_genre := some (decode_label env lab) })) task.id = _
    rw [lookupTask_update_one ts' task.id
        (fun t => { t with status := "done", predicted_genre := some (decode_label env lab) })
        (fun t => rfl),
      find_one_some_lookup db.tasks task ts' hids hfind]
    rfl
  · show lookupClassification (update_classification db.classifications
      task.id (decode_label env lab) conf) task.id = _
    exact lookupClassification_update db.classifications task.id
      (decode_label env lab) conf

theorem classify_step_proba (env : WorkerEnv) (fv : List ℚ) (proba : List ℚ)
    (idx : ℕ) (lab : String) (c : ℚ)
    (hp : env.predict_proba fv = .ok proba)
    (ha : argmax? proba = some idx)
    (hc : env.classes.get? idx = some lab)
    (hx : proba.get? idx = some c) :
    classify_step env fv = .ok (lab, c) := by
  simp only [classify_step, proba_path, hp, ha, hc, hx]

theorem classify_step_fallback (env : WorkerEnv) (fv : List ℚ) (e : String)
    (lab : String)
    (hp : env.predict_proba fv = .error e)
    (hd : env.predict fv = .ok lab) :
    classify_step env fv = .ok (lab, 1) := by
  simp only [classify_step, proba_path, hp, hd]

theorem decode_label_fallback (env : WorkerEnv) (lab m : String)
    (h : env.inverse_transform lab = .error m) :
    decode_label env lab = lab := by
  simp only [decode_label, h]

/-- C4: in the trained-model path of process_one, when predict_proba
succeeds the predicted label is the class at the argmax index of the
distribution and the persisted confidence is exactly that class
probability; when the probability call fails and the hard prediction
succeeds the confidence is exactly 1; and when the label-decoder inverse
transform fails the raw predicted label is persisted instead of raising,
the task still completing with status done. -/
theorem trained_model_classification (env : WorkerEnv) (db : DB)
    (task : Task) (ts' : List Task) (audio : List ℚ × ℕ) (fv : List ℚ)
    (hclaim : env.claim_exc = none)
    (hfind : find_one_and_update_pending db.tasks = (some task, ts'))
    (hread : env.read_audio task.gridfs_id = .ok audio)
    (hext : env.extract audio = .ok fv)
    (hw1 : env.classifications_write = .ok ())
    (hw2 : env.mark_done_write = .ok ())
    (hids : (db.tasks.map Task.id).Nodup) :
    (∀ proba idx lab c,
      env.predict_proba fv = .ok proba → argmax? proba = some idx →
      env.classes.get? idx = some lab → proba.get? idx = some c →
      classify_step env fv = .ok (lab, c) ∧
      (lookupClassification (process_one env db).2.classifications task.id).map
          Classification.confidence =
        (lookupClassification db.classifications task.id).map
          (fun _ => some c)) ∧
    (∀ e lab, env.predict_proba fv = .error e → env.predict fv = .ok lab →
      classify_step env fv = .ok (lab, 1)) ∧
    (∀ lab c m, classify_step env fv = .ok (lab, c) →
      env.inverse_transform lab = .error m →
      (process_one env db).1 = .ret true ∧
      lookupTask (process_one env db).2.tasks task.id =
        some { task with status := "done", predicted_genre := some lab } ∧
      (lookupClassification (process_one env db).2.classifications task.id).map
          Classification.classification =
        (lookupClassification db.classifications task.id).map
          (fun _ => some lab)) := by
  refine ⟨?_, ?_, ?_⟩
  · intro proba idx lab c hp ha hc hx
    have hcs := classify_step_proba env fv proba idx lab c hp ha hc hx
    have hps := process_one_success env db task ts' audio fv lab c hclaim
      hfind hread hext hcs hw1 hw2 hids
    refine ⟨hcs, ?_⟩
    rw [hps.2.2]
    cases lookupClassification db.classifications task.id with
    | none => rfl
    | some c0 => rfl
  · intro e lab hp hd
    exact classify_step_fallback env fv e lab hp hd
  · intro lab c m hcs hm
    have hdl : decode_label env lab = lab := decode_label_fallback env lab m hm
    have hps := process_one_success env db task ts' audio fv lab c hclaim
      hfind hread hext hcs hw1 hw2 hids
    rw [hdl] at hps
    refine ⟨hps.1, hps.2.1, ?_⟩
    rw [hps.2.2]
    cases lookupClassification db.classifications task.id with
    | none => rfl
    | some c0 => rfl

theorem trained_model_classification_witness :
    classify_step env4 [2, 3] = .ok ("hiphop", 4 / 5) ∧
    (process_one env4 dbOneTask).1 = .ret true := by
  have h := trained_model_classification env4 dbOneTask task0 [task0proc]
    ([1, 0], 22050) [2, 3] rfl (by decide) rfl rfl rfl rfl (by decide)
  have harg : argmax? [1 / 5, 4 / 5] = some 1 := by
    rw [argmax?, argmaxAux, if_pos (by norm_num : (1 / 5 : ℚ) < 4 / 5)]
    rfl
  have h1 := h.1 [1 / 5, 4 / 5] 1 "hiphop" (4 / 5) rfl harg rfl rfl
  exact ⟨h1.1, (h.2.2 "hiphop" (4 / 5) "unseen label" h1.1 rfl).1⟩

/-- C5 (amended): the classification path of process_one performs no
feature-vector validation at all: whatever vector the extractor returns,
including a malformed one whose length differs from the 8 components the
pipeline is built around, is handed directly to the model and scored, and
its score completes the task normally; no InvalidFeatureVector rejection
exists between extraction and scoring. -/
theorem no_feature_vector_validation (env : WorkerEnv) (db : DB)
    (task : Task) (ts' : List Task) (audio : List ℚ × ℕ) (fv : List ℚ)
    (lab : String) (conf : ℚ)
    (hmal : fv.length ≠ 8)
    (hclaim : env.claim_exc = none)
    (hfind : find_one_and_update_pending db.tasks = (some task, ts'))
    (hread : env.read_audio task.gridfs_id = .ok audio)
    (hext : env.extract audio = .ok fv)
    (hcls : classify_step env fv = .ok (lab, conf))
    (hw1 : env.classifications_write = .ok ())
    (hw2 : env.mark_done_write = .ok ())
    (hids : (db.tasks.map Task.id).Nodup) :
    (process_one env db).1 = .ret true ∧
    lookupTask (process_one env db).2.tasks task.id =
      some { task with status := "done", predicted_genre := some (decode_label env lab) } := by
  have hps := process_one_success env db task ts' audio fv lab conf hclaim
    hfind hread hext hcls hw1 hw2 hids
  exact ⟨hps.1, hps.2.1⟩

/-- C5 counterexample: the extractor produces a malformed length-3 vector
(the pipeline contract is 8 components), yet process_one hands it straight
to the model, which observes exactly the malformed vector and scores it,
and the task completes with status done; no InvalidFeatureVector rejection
occurs before scoring, refuting the claim. -/
theorem no_feature_vector_validation_counterexample :
    (process_one envMalformed dbOneTask).1 = PResult.ret true ∧
    lookupTask (process_one envMalformed dbOneTask).2.tasks 1 =
      some { task0 with status := "done", predicted_genre := some "rock" } := by
  decide

theorem no_feature_vector_validation_witness :
    ([1, 2, 3] : List ℚ).length ≠ 8 ∧
    (process_one envMalformed dbOneTask).1 = .ret true :=
  ⟨by decide,
   (no_feature_vector_validation envMalformed dbOneTask task0 [task0proc]
     ([0, 0], 22050) [1, 2, 3] "rock" 1 (by decide) rfl (by decide) rfl rfl
     rfl rfl rfl (by decide)).1⟩

end MLClient
